import Mathlib

/-!
Shallow embedding of `bloomstack_core/hook_events/utils.py`.

The module is ERP glue code: license validation hooks on party documents,
a cascade that propagates a `billable` flag from Project Type / Project
Template / Project / Task references down to Timesheet Detail rows, and a
recursive linked-document traversal used by a relationship viewer.

Host-framework calls (`frappe.get_doc`, `frappe.get_all`,
`frappe.db.get_value`, `frappe.db.set_value`, `doc.save`, `frappe.msgprint`,
`frappe.throw`, link metadata queries) are modelled by explicit state:
an in-memory database of records, a list of emitted advisory messages, and
`Except` for hard rejections raised via `frappe.throw`.  Dates are modelled
as integer day ordinals, so `date_diff(a, b)` is integer subtraction and
date comparison is integer comparison.
-/

namespace Bloomstack

/-! ## License data model

A party (Customer/Supplier) document carries a child table `licenses`;
each row has the fields used by the source: row index `idx`, a `license`
id linking to a Compliance Info record, an `is_default` flag, and an
optional `license_expiry_date`. -/

structure LicenseRow where
  idx : Nat
  license : String
  is_default : Bool
  license_expiry_date : Option Int
deriving DecidableEq

structure PartyDoc where
  name : String
  licenses : List LicenseRow
deriving DecidableEq

/-- A `Compliance Info` record as read by
`frappe.db.get_value("Compliance Info", _, ["license_expiry_date", "license_number"])`. -/
structure ComplianceInfo where
  license_expiry_date : Option Int
  license_number : String
deriving DecidableEq

/-- Advisory messages emitted through `frappe.msgprint`.  Each constructor
records the arguments interpolated into the corresponding format string of
the source. -/
inductive Message where
  | licenseUnverifiable (license_number : String)
  | partyLicenseExpired (party_name license_number : String) (expiry_date : Int)
  | rowLicenseExpired (idx : Nat) (license : String) (days_ago : Int)
deriving DecidableEq

/-- Hard rejections raised through `frappe.throw`.  Each constructor records
the arguments interpolated into the corresponding format string of the
source. -/
inductive ThrowMsg where
  | duplicateLicenses
  | noDefaultLicense
  | multipleDefaults (docname : String) (found : Nat)
deriving DecidableEq

/-- `date_diff(a, b)` of the host utils: the signed number of days from `b`
to `a`. -/
def dateDiff (a b : Int) : Int := a - b

/-! ## `get_default_license` -/

/-- `get_default_license(party_type, party_name)` acting on the fetched
party's `licenses` child table.  Mirrors the source line by line:
`if not licenses: return` gives Python `None` (here `none`);
`find(licenses, lambda license: license.get("is_default")) or ''` takes the
first row flagged default, falling back to the empty string, and when a row
was found its `license` field is returned. -/
def get_default_license (licenses : List LicenseRow) : Option String :=
  if licenses.isEmpty then
    none
  else
    match licenses.find? (fun license => license.is_default) with
    | some default_license => some default_license.license
    | none => some ""

/-- Python truthiness of the value returned by `get_default_license`:
both `None` and the empty string are falsy. -/
def isFalsyStr : Option String → Bool
  | none => true
  | some s => s.isEmpty

/-! ## `validate_entity_license` -/

/-- The slice of host state read by `validate_entity_license`: the
`licenses` child table of each party document, and the Compliance Info
records by name (`none` when no record with that name exists). -/
structure Env where
  partyLicenses : String → String → List LicenseRow
  complianceInfo : String → Option ComplianceInfo

/-- `validate_entity_license(party_type, party_name)`.  Returns
`some (messages, return_value)`; `none` models the host error raised when
the default license names no Compliance Info record (unpacking a `None`
result of `frappe.db.get_value`).  `today` is `getdate(nowdate())`. -/
def validate_entity_license (env : Env) (today : Int)
    (party_type party_name : String) : Option (List Message × Option String) :=
  match get_default_license (env.partyLicenses party_type party_name) with
  | none => some ([], none)
  | some license_record =>
    if license_record.isEmpty then
      some ([], none)
    else
      match env.complianceInfo license_record with
      | none => none
      | some info =>
        let msgs :=
          match info.license_expiry_date with
          | none => [Message.licenseUnverifiable info.license_number]
          | some d =>
            if d < today then
              [Message.partyLicenseExpired party_name info.license_number d]
            else
              []
        some (msgs, some license_record)

/-! ## `validate_default_license` -/

/-- `validate_default_license(doc, method)`.  `Except.error` models
`frappe.throw`; an `Except.ok` result carries the (possibly mutated)
document.  `list(set(...))` is modelled by `List.dedup` (same length as the
set of distinct license ids); `doc.licenses[0].is_default = 1` mutates the
head row. -/
def validate_default_license (doc : PartyDoc) : Except ThrowMsg PartyDoc :=
  let unique_licenses := (doc.licenses.map (fun license => license.license)).dedup
  if doc.licenses.length ≠ unique_licenses.length then
    Except.error ThrowMsg.duplicateLicenses
  else if doc.licenses.length = 1 then
    Except.ok { doc with licenses :=
      match doc.licenses with
      | [] => []
      | row :: rest => { row with is_default := true } :: rest }
  else if doc.licenses.length > 1 then
    let default_licenses := doc.licenses.filter (fun license => license.is_default)
    if default_licenses.isEmpty then
      Except.error ThrowMsg.noDefaultLicense
    else if default_licenses.length > 1 then
      Except.error (ThrowMsg.multipleDefaults doc.name default_licenses.length)
    else
      Except.ok doc
  else
    Except.ok doc

/-! ## `validate_expired_licenses` -/

/-- `validate_expired_licenses(doc, method)`: iterates the `licenses` rows
in order and emits one advisory message for each row having an expiry date
strictly before today.  The document itself is not changed (the function
only calls `frappe.msgprint`), so the model returns just the messages. -/
def validate_expired_licenses (today : Int) : List LicenseRow → List Message
  | [] => []
  | row :: rest =>
    (match row.license_expiry_date with
     | some d =>
       if d < today then
         [Message.rowLicenseExpired row.idx row.license (dateDiff today d)]
       else
         []
     | none => []) ++ validate_expired_licenses today rest

/-- The guard of the loop body of `validate_expired_licenses`:
`row.license_expiry_date and row.license_expiry_date < getdate(today())`. -/
def isExpired (today : Int) (row : LicenseRow) : Bool :=
  match row.license_expiry_date with
  | some d => d < today
  | none => false

/-! ## Billable cascade data model

`update_timesheet_logs` and its helpers touch three doctypes: Project
(with `project_type` and `project_template` reference fields), Task (with a
`project` reference field) and Timesheet Detail (with `project` and `task`
reference fields).  Each carries the `billable` flag being propagated.
Record names are the primary keys used by `frappe.db.set_value` and
`doc.save`. -/

structure ProjectRec where
  name : String
  project_type : String
  project_template : String
  billable : Bool
deriving DecidableEq

structure TaskRec where
  name : String
  project : String
  billable : Bool
deriving DecidableEq

structure TimesheetDetailRec where
  name : String
  project : String
  task : String
  billable : Bool
deriving DecidableEq

structure Database where
  projects : List ProjectRec
  tasks : List TaskRec
  timesheet_details : List TimesheetDetailRec
deriving DecidableEq

/-- `frappe.scrub`: spaces and hyphens become underscores, letters are
lowercased. -/
def scrubChar (c : Char) : Char :=
  if c = ' ' then '_' else if c = '-' then '_' else c.toLower

def scrub (txt : String) : String :=
  String.mk (txt.data.map scrubChar)

/-- `frappe.get_all("Project", filters={ref_field: ref_value})`:
the dynamic filter field produced by `scrub` on a reference doctype. -/
def projectFieldMatches (field value : String) (p : ProjectRec) : Bool :=
  if field = "project_type" then p.project_type = value
  else if field = "project_template" then p.project_template = value
  else false

/-- `frappe.get_all("Timesheet Detail", filters={frappe.scrub(ref_dt): ref_dn})`. -/
def timesheetFieldMatches (field value : String) (td : TimesheetDetailRec) : Bool :=
  if field = "project" then td.project = value
  else if field = "task" then td.task = value
  else false

/-- Update by primary key: the effect of `frappe.db.set_value` /
`doc.save` on a record list, applying `f` to every record named
`docname`. -/
def setNamed (name : α → String) (f : α → α) (docname : String)
    (l : List α) : List α :=
  l.map (fun x => if name x = docname then f x else x)

/-- `frappe.db.set_value("Timesheet Detail", docname, "billable", billable)`. -/
def setTimesheetBillable (docname : String) (billable : Bool)
    (db : Database) : Database :=
  { db with timesheet_details :=
      (setNamed TimesheetDetailRec.name (fun td => { td with billable := billable })
        docname db.timesheet_details) }

/-- `project_doc.billable = billable; project_doc.save()`. -/
def setProjectBillable (docname : String) (billable : Bool)
    (db : Database) : Database :=
  { db with projects :=
      (setNamed ProjectRec.name (fun p => { p with billable := billable })
        docname db.projects) }

/-- `task_doc.billable = billable; task_doc.save()`. -/
def setTaskBillable (docname : String) (billable : Bool)
    (db : Database) : Database :=
  { db with tasks :=
      (setNamed TaskRec.name (fun t => { t with billable := billable })
        docname db.tasks) }

/-- `update_linked_tasks(project, billable)`: fetch all Tasks of the
project, set `billable` on each and save; return the fetched list. -/
def update_linked_tasks (project : String) (billable : Bool)
    (db : Database) : Database × List TaskRec :=
  let tasks := db.tasks.filter (fun task => task.project = project)
  (tasks.foldl (fun db task => setTaskBillable task.name billable db) db, tasks)

/-- `update_linked_projects(ref_field, ref_value, billable)`: fetch all
Projects matching the scrubbed reference field, set `billable` and save
each, cascade to its Tasks, and return the fetched project list. -/
def update_linked_projects (ref_field ref_value : String) (billable : Bool)
    (db : Database) : Database × List ProjectRec :=
  let projects := db.projects.filter (projectFieldMatches ref_field ref_value)
  (projects.foldl (fun db project =>
      (update_linked_tasks project.name billable
        (setProjectBillable project.name billable db)).1) db,
   projects)

/-- `get_project_time_logs(project)`. -/
def get_project_time_logs (db : Database) (project : ProjectRec) :
    List TimesheetDetailRec :=
  db.timesheet_details.filter (fun td => td.project = project.name)

/-- `update_timesheet_logs(ref_dt, ref_dn, billable)`. -/
def update_timesheet_logs (ref_dt ref_dn : String) (billable : Bool)
    (db : Database) : Database :=
  if ref_dt ∈ ["Project", "Task"] then
    let time_logs := db.timesheet_details.filter
      (timesheetFieldMatches (scrub ref_dt) ref_dn)
    time_logs.foldl (fun db log => setTimesheetBillable log.name billable db) db
  else if ref_dt ∈ ["Project Type", "Project Template"] then
    let res := update_linked_projects (scrub ref_dt) ref_dn billable db
    let time_logs := (res.2.map (fun project => get_project_time_logs res.1 project)).flatten
    time_logs.foldl (fun db log => setTimesheetBillable log.name billable db) res.1
  else
    db

/-! ## Linked-document traversal

`get_linked_documents(doctype, name, docs=None)` walks the link graph the
host framework reports.  `get_linked_doctypes` plus `get_linked_docs`
together yield, for a given `(doctype, name)`, a mapping from linking
doctype to the list of linked records; `LinkGraph` models that pair of host
queries.  Each linked record exposes `name` and `docstatus`.

The Python function recurses with a mutated `docs` list and has no fuel of
its own; the Lean model threads `docs` explicitly and adds a `fuel`
parameter that decreases on every recursive `get_linked_documents` call.
`none` means the fuel ran out, i.e. the real code would still be running at
that recursion depth; a `some` result is exactly the value the Python code
returns.

Aliasing of the accumulator: the source's entry guard `if not docs:
docs = []` rebinds the local name to a *fresh* list whenever the received
accumulator is falsy (the top-level `None`, or an empty list).  Inside the
callee a fresh empty list and a received empty list are indistinguishable,
so the callee's own computation is unchanged; the observable effect is at
the call site: when the caller's accumulator is empty at a recursive call,
the child's appends land in the child's fresh list and never reach the
caller, whose accumulator is still its own empty list afterwards.  Only
when the accumulator is non-empty at the call do caller and child share
one list, so the caller continues with the list the child returned
(including the child's in-place sort).  The model places this case split
at the call-return site in `processLinks`, where the aliasing is
observable in a pure embedding. -/

structure LinkItem where
  name : String
  docstatus : Int
deriving DecidableEq

/-- The transient node descriptor appended to `docs`. -/
structure NodeInfo where
  doctype : String
  name : String
  docstatus : Int
  link_count : Nat
deriving DecidableEq

/-- Host link metadata and link query for a `(doctype, name)` pair: linked
records grouped by the doctype linking to them, in iteration order of the
dict returned by `get_linked_docs`. -/
def LinkGraph := String → String → List (String × List LinkItem)

/-- `validate_linked_doc(docinfo)`: the `doctype` entry of the node
descriptor must be in the allow-list. -/
def validate_linked_doc (doctype : String) : Bool :=
  doctype ∈ ["Project", "Timesheet", "Task"]

/-- `docs.sort(key=lambda doc: doc.get("link_count"))`: sort ascending by
`link_count`. -/
def sortByLinkCount (docs : List NodeInfo) : List NodeInfo :=
  List.insertionSort (fun a b => a.link_count ≤ b.link_count) docs

/-- The inner `for link in link_names` loop of `get_linked_documents`,
with the recursive call abstracted as `rec`.  Threads the accumulated
`docs` and the running `link_count`; propagates `none` (out of fuel) from
the recursion.  After a recursive call the loop's list is the child's
returned list only when the accumulator was non-empty at the call (shared
list, mutated in place by the child); when it was empty the child worked
on a fresh list (`if not docs: docs = []` in the callee) and the caller
keeps its own, still-empty list. -/
def processLinks (rec : String → String → List NodeInfo → Option (List NodeInfo × Nat))
    (link_doctype : String) :
    List LinkItem → List NodeInfo → Nat → Option (List NodeInfo × Nat)
  | [], docs, link_count => some (docs, link_count)
  | link :: rest, docs, link_count =>
    if validate_linked_doc link_doctype then
      if (docs.map (fun doc => doc.name)).contains link.name then
        processLinks rec link_doctype rest docs (link_count + 1)
      else
        match rec link_doctype link.name docs with
        | none => none
        | some (docs2, sub_count) =>
          processLinks rec link_doctype rest
            ((if docs.isEmpty then docs else docs2) ++
              [{ doctype := link_doctype, name := link.name,
                 docstatus := link.docstatus, link_count := sub_count }])
            (link_count + 1)
    else
      processLinks rec link_doctype rest docs link_count

/-- The outer `for link_doctype, link_names in linked_docs.items()` loop. -/
def processGroups (rec : String → String → List NodeInfo → Option (List NodeInfo × Nat)) :
    List (String × List LinkItem) → List NodeInfo → Nat → Option (List NodeInfo × Nat)
  | [], docs, link_count => some (docs, link_count)
  | (link_doctype, link_names) :: rest, docs, link_count =>
    match processLinks rec link_doctype link_names docs link_count with
    | none => none
    | some (docs2, count2) => processGroups rec rest docs2 count2

/-- `get_linked_documents(doctype, name, docs)` over link graph `G`, with
explicit fuel.  A `some (docs, count)` result models the returned dict
`{"docs": docs, "count": count}`; the top-level entry point passes
`docs = []` (the `None` default rebound by `if not docs: docs = []`).
The same guard's rebinding of an empty received accumulator to a fresh
list changes nothing inside the callee (both are the empty list); its
observable effect — the caller of a child that got an empty list never
sees that child's appends — is modelled at the call-return site in
`processLinks`. -/
def get_linked_documents (G : LinkGraph) :
    Nat → String → String → List NodeInfo → Option (List NodeInfo × Nat)
  | 0, _, _, _ => none
  | fuel + 1, doctype, name, docs =>
    match processGroups (get_linked_documents G fuel) (G doctype name) docs 0 with
    | none => none
    | some (docs2, link_count) => some (sortByLinkCount docs2, link_count)

/-- The number of accepted (allow-listed) direct links reported by a group
list: every link in an allow-listed group counts. -/
def acceptedLinkCount (groups : List (String × List LinkItem)) : Nat :=
  (groups.map (fun g => if validate_linked_doc g.1 then g.2.length else 0)).sum

/-! ## Concrete fixtures -/

/-- The spec's worked example: Project "P1" is linked to Task "T1" (which
has no further links) and to one record of a disallowed doctype. -/
def exampleGraph : LinkGraph := fun doctype name =>
  match doctype, name with
  | "Project", "P1" => [("Task", [⟨"T1", 0⟩]), ("Sales Order", [⟨"SO1", 1⟩])]
  | _, _ => []

/-- A genuine link cycle through allow-listed doctypes:
Project "A" links to Task "B", which links back to Project "A". -/
def cycleGraph : LinkGraph := fun doctype name =>
  match doctype, name with
  | "Project", "A" => [("Task", [⟨"B", 0⟩])]
  | "Task", "B" => [("Project", [⟨"A", 0⟩])]
  | _, _ => []

/-- A graph containing the cycle Project "M" ↔ Project "N", where the
traversal from Project "R" first appends a node named "N" (Task "N"), so
the cycle's entry link is suppressed by the name-based visited check and
the walk terminates. -/
def guardedGraph : LinkGraph := fun doctype name =>
  match doctype, name with
  | "Project", "R" => [("Task", [⟨"N", 0⟩]), ("Project", [⟨"M", 0⟩])]
  | "Project", "M" => [("Project", [⟨"N", 0⟩])]
  | "Project", "N" => [("Project", [⟨"M", 0⟩])]
  | _, _ => []

/-- A billable-cascade fixture: two Projects of type "TY1" (with two and
one Tasks), one Project of another type, and one Timesheet Detail row per
project. -/
def fixtureDB : Database :=
  { projects := [⟨"P1", "TY1", "", false⟩, ⟨"P2", "TY1", "", false⟩,
                 ⟨"P3", "TY2", "", false⟩],
    tasks := [⟨"T11", "P1", false⟩, ⟨"T12", "P1", false⟩, ⟨"T21", "P2", false⟩,
              ⟨"T31", "P3", false⟩],
    timesheet_details := [⟨"D1", "P1", "T11", false⟩, ⟨"D2", "P2", "T21", false⟩,
                          ⟨"D3", "P3", "T31", false⟩] }

/-! ## Proof infrastructure

List-level views of the database folds performed by the billable cascade;
these are not part of the source translation, only devices to state
intermediate equalities. -/

/-- The cumulative effect on the Timesheet Detail table of
`frappe.db.set_value("Timesheet Detail", nm, "billable", b)` for each
`nm` in `sel`. -/
def tdSetFold (b : Bool) (sel : List String) (l : List TimesheetDetailRec) :
    List TimesheetDetailRec :=
  sel.foldl (fun l2 nm =>
    setNamed TimesheetDetailRec.name (fun td => { td with billable := b }) nm l2) l

/-- The cumulative effect on the Task table of saving each named Task with
`billable := b`. -/
def taskSetFold (b : Bool) (sel : List String) (l : List TaskRec) : List TaskRec :=
  sel.foldl (fun l2 nm =>
    setNamed TaskRec.name (fun t => { t with billable := b }) nm l2) l

/-- The cumulative effect on the Project table of saving each named
Project with `billable := b`. -/
def projSetFold (b : Bool) (sel : List String) (l : List ProjectRec) : List ProjectRec :=
  sel.foldl (fun l2 nm =>
    setNamed ProjectRec.name (fun p => { p with billable := b }) nm l2) l

/-- The effect of one `update_linked_tasks` call on the Task table. -/
def taskUpdList (b : Bool) (nm : String) (l : List TaskRec) : List TaskRec :=
  taskSetFold b ((l.filter (fun t => t.project = nm)).map TaskRec.name) l

/-! ## Helper lemmas -/

theorem dedup_length_eq_iff {α} [DecidableEq α] (l : List α) :
    l.dedup.length = l.length ↔ l.Nodup := by
  constructor
  · intro h
    have heq := (List.dedup_sublist l).eq_of_length h
    rw [← heq]
    exact l.nodup_dedup
  · intro h
    rw [List.dedup_eq_self.mpr h]

theorem foldl_setNamed {α} (name : α → String) (f : α → α)
    (hname : ∀ x, name (f x) = name x) (hidem : ∀ x, f (f x) = f x)
    (sel : List String) (l : List α) :
    sel.foldl (fun l2 nm => setNamed name f nm l2) l =
      l.map (fun x => if name x ∈ sel then f x else x) := by
  induction sel generalizing l with
  | nil => simp
  | cons nm rest ih =>
    rw [List.foldl_cons, ih, setNamed, List.map_map]
    refine List.map_congr_left (fun x _ => ?_)
    simp only [Function.comp_apply]
    by_cases h1 : name x = nm <;> by_cases h2 : name x ∈ rest <;>
      simp [h1, h2, hname, hidem, List.mem_cons]

theorem mem_names_filter_iff {α} (name : α → String) (p : α → Bool) (l : List α)
    (hnd : (l.map name).Nodup) (x : α) (hx : x ∈ l) :
    (name x ∈ (l.filter p).map name) ↔ p x = true := by
  constructor
  · intro h
    obtain ⟨y, hy, hyx⟩ := List.mem_map.mp h
    obtain ⟨hyl, hpy⟩ := List.mem_filter.mp hy
    rw [← List.inj_on_of_nodup_map hnd hyl hx hyx]
    exact hpy
  · intro h
    exact List.mem_map_of_mem name (List.mem_filter.mpr ⟨hx, h⟩)

theorem foldl_setTimesheetBillable (b : Bool) (logs : List TimesheetDetailRec) :
    ∀ db : Database,
    logs.foldl (fun db2 log => setTimesheetBillable log.name b db2) db =
      { db with timesheet_details :=
          tdSetFold b (logs.map TimesheetDetailRec.name) db.timesheet_details } := by
  induction logs with
  | nil => intro db; rfl
  | cons log rest ih =>
    intro db
    rw [List.foldl_cons, ih]
    rfl

theorem foldl_setTaskBillable (b : Bool) (logs : List TaskRec) :
    ∀ db : Database,
    logs.foldl (fun db2 task => setTaskBillable task.name b db2) db =
      { db with tasks := taskSetFold b (logs.map TaskRec.name) db.tasks } := by
  induction logs with
  | nil => intro db; rfl
  | cons task rest ih =>
    intro db
    rw [List.foldl_cons, ih]
    rfl

theorem update_linked_tasks_fst (nm : String) (b : Bool) (db : Database) :
    (update_linked_tasks nm b db).1 = { db with tasks := taskUpdList b nm db.tasks } := by
  rw [update_linked_tasks, foldl_setTaskBillable]
  rfl

theorem update_linked_projects_eq (f v : String) (b : Bool) (db : Database) :
    update_linked_projects f v b db =
      ({ projects := projSetFold b
           ((db.projects.filter (projectFieldMatches f v)).map ProjectRec.name) db.projects,
         tasks := ((db.projects.filter (projectFieldMatches f v)).map ProjectRec.name).foldl
           (fun l nm => taskUpdList b nm l) db.tasks,
         timesheet_details := db.timesheet_details },
       db.projects.filter (projectFieldMatches f v)) := by
  rw [update_linked_projects]
  have hfold : ∀ (ps : List ProjectRec) (db2 : Database),
      ps.foldl (fun db3 project =>
        (update_linked_tasks project.name b (setProjectBillable project.name b db3)).1) db2 =
      { projects := projSetFold b (ps.map ProjectRec.name) db2.projects,
        tasks := (ps.map ProjectRec.name).foldl (fun l nm => taskUpdList b nm l) db2.tasks,
        timesheet_details := db2.timesheet_details } := by
    intro ps
    induction ps with
    | nil => intro db2; rfl
    | cons p rest ih =>
      intro db2
      rw [List.foldl_cons, update_linked_tasks_fst, ih]
      rfl
  rw [hfold]

theorem taskUpdList_eq (b : Bool) (nm : String) (l : List TaskRec)
    (hnd : (l.map TaskRec.name).Nodup) :
    taskUpdList b nm l =
      l.map (fun t => if t.project = nm then { t with billable := b } else t) := by
  rw [taskUpdList, taskSetFold, foldl_setNamed TaskRec.name
    (fun t => { t with billable := b }) (fun _ => rfl) (fun _ => rfl)]
  refine List.map_congr_left (fun t ht => ?_)
  have hmem := mem_names_filter_iff TaskRec.name (fun t => decide (t.project = nm)) l hnd t ht
  simp only [decide_eq_true_eq] at hmem
  simp [hmem]

theorem foldl_taskUpdList_eq (b : Bool) (nms : List String) :
    ∀ l : List TaskRec, (l.map TaskRec.name).Nodup →
    nms.foldl (fun l2 nm => taskUpdList b nm l2) l =
      l.map (fun t => if t.project ∈ nms then { t with billable := b } else t) := by
  induction nms with
  | nil => intro l _; simp
  | cons nm rest ih =>
    intro l hnd
    have hg : (l.map (fun t => if t.project = nm then { t with billable := b } else t)).map
        TaskRec.name = l.map TaskRec.name := by
      rw [List.map_map]
      refine List.map_congr_left (fun t _ => ?_)
      by_cases h : t.project = nm <;> simp [h]
    rw [List.foldl_cons, taskUpdList_eq b nm l hnd, ih _ (by rw [hg]; exact hnd),
      List.map_map]
    refine List.map_congr_left (fun t _ => ?_)
    simp only [Function.comp_apply]
    by_cases h1 : t.project = nm <;> by_cases h2 : t.project ∈ rest <;>
      simp [h1, h2, List.mem_cons]

theorem tdSetFold_filter_eq (b : Bool) (p : TimesheetDetailRec → Bool)
    (l : List TimesheetDetailRec) (hnd : (l.map TimesheetDetailRec.name).Nodup) :
    tdSetFold b ((l.filter p).map TimesheetDetailRec.name) l =
      l.map (fun td => if p td = true then { td with billable := b } else td) := by
  rw [tdSetFold, foldl_setNamed TimesheetDetailRec.name
    (fun td => { td with billable := b }) (fun _ => rfl) (fun _ => rfl)]
  refine List.map_congr_left (fun td htd => ?_)
  have hmem := mem_names_filter_iff TimesheetDetailRec.name p l hnd td htd
  simp [hmem]

theorem projSetFold_filter_eq (b : Bool) (p : ProjectRec → Bool)
    (l : List ProjectRec) (hnd : (l.map ProjectRec.name).Nodup) :
    projSetFold b ((l.filter p).map ProjectRec.name) l =
      l.map (fun pr => if p pr = true then { pr with billable := b } else pr) := by
  rw [projSetFold, foldl_setNamed ProjectRec.name
    (fun pr => { pr with billable := b }) (fun _ => rfl) (fun _ => rfl)]
  refine List.map_congr_left (fun pr hpr => ?_)
  have hmem := mem_names_filter_iff ProjectRec.name p l hnd pr hpr
  simp [hmem]

theorem mem_flatten_time_logs_iff (tds : List TimesheetDetailRec)
    (htd : (tds.map TimesheetDetailRec.name).Nodup) (matched : List ProjectRec)
    (td : TimesheetDetailRec) (hin : td ∈ tds) :
    (TimesheetDetailRec.name td ∈
      ((matched.map (fun p => tds.filter (fun td2 => td2.project = p.name))).flatten).map
        TimesheetDetailRec.name) ↔ td.project ∈ matched.map ProjectRec.name := by
  constructor
  · intro h
    obtain ⟨td2, htd2, heq⟩ := List.mem_map.mp h
    obtain ⟨l, hl, htd2l⟩ := List.mem_flatten.mp htd2
    obtain ⟨p, hpm, hpeq⟩ := List.mem_map.mp hl
    rw [← hpeq] at htd2l
    obtain ⟨htd2in, hproj⟩ := List.mem_filter.mp htd2l
    have heq2 : td2 = td := List.inj_on_of_nodup_map htd htd2in hin heq
    rw [heq2] at hproj
    simp only [decide_eq_true_eq] at hproj
    rw [hproj]
    exact List.mem_map_of_mem ProjectRec.name hpm
  · intro h
    obtain ⟨p, hpm, hpeq⟩ := List.mem_map.mp h
    refine List.mem_map_of_mem TimesheetDetailRec.name (List.mem_flatten.mpr
      ⟨tds.filter (fun td2 => td2.project = p.name), List.mem_map_of_mem _ hpm,
        List.mem_filter.mpr ⟨hin, by rw [hpeq]; simp⟩⟩)

theorem cascade_eq (f v : String) (b : Bool) (db : Database)
    (hp : (db.projects.map ProjectRec.name).Nodup)
    (ht : (db.tasks.map TaskRec.name).Nodup)
    (htd : (db.timesheet_details.map TimesheetDetailRec.name).Nodup) :
    (((update_linked_projects f v b db).2.map
        (fun project => get_project_time_logs (update_linked_projects f v b db).1 project)).flatten).foldl
      (fun db2 log => setTimesheetBillable log.name b db2) (update_linked_projects f v b db).1 =
    { projects := (db.projects.map (fun p =>
        if projectFieldMatches f v p = true then { p with billable := b } else p)),
      tasks := (db.tasks.map (fun t =>
        if t.project ∈ (db.projects.filter (projectFieldMatches f v)).map ProjectRec.name
        then { t with billable := b } else t)),
      timesheet_details := (db.timesheet_details.map (fun td =>
        if td.project ∈ (db.projects.filter (projectFieldMatches f v)).map ProjectRec.name
        then { td with billable := b } else td)) } := by
  rw [update_linked_projects_eq, foldl_setTimesheetBillable]
  simp only [get_project_time_logs]
  congr 1
  · exact projSetFold_filter_eq b _ _ hp
  · exact foldl_taskUpdList_eq b _ _ ht
  · rw [tdSetFold, foldl_setNamed TimesheetDetailRec.name
      (fun td => { td with billable := b }) (fun _ => rfl) (fun _ => rfl)]
    refine List.map_congr_left (fun td hmem => ?_)
    have hiff := mem_flatten_time_logs_iff db.timesheet_details htd
      (db.projects.filter (projectFieldMatches f v)) td hmem
    exact if_congr hiff rfl rfl

theorem processLinks_count (rec : String → String → List NodeInfo → Option (List NodeInfo × Nat))
    (dt : String) :
    ∀ (links : List LinkItem) (docs : List NodeInfo) (c : Nat)
      (docs2 : List NodeInfo) (c2 : Nat),
    processLinks rec dt links docs c = some (docs2, c2) →
    c2 = c + (if validate_linked_doc dt then links.length else 0) := by
  intro links
  induction links with
  | nil =>
    intro docs c docs2 c2 h
    simp only [processLinks, Option.some.injEq, Prod.mk.injEq] at h
    rcases h with ⟨-, h2⟩
    simp [← h2]
  | cons link rest ih =>
    intro docs c docs2 c2 h
    simp only [processLinks] at h
    by_cases hv : validate_linked_doc dt
    · rw [if_pos hv] at h
      rw [if_pos hv]
      by_cases hc : ((docs.map (fun doc => doc.name)).contains link.name) = true
      · rw [if_pos hc] at h
        have := ih docs (c + 1) docs2 c2 h
        rw [if_pos hv] at this
        simp [this, List.length_cons]
        omega
      · rw [if_neg hc] at h
        cases hrec : rec dt link.name docs with
        | none => rw [hrec] at h; exact absurd h (by simp)
        | some res =>
          rw [hrec] at h
          obtain ⟨d2, sub⟩ := res
          have := ih _ (c + 1) docs2 c2 h
          rw [if_pos hv] at this
          simp [this, List.length_cons]
          omega
    · rw [if_neg hv] at h
      rw [if_neg hv]
      have := ih docs c docs2 c2 h
      rw [if_neg hv] at this
      simpa using this

theorem processGroups_count (rec : String → String → List NodeInfo → Option (List NodeInfo × Nat)) :
    ∀ (groups : List (String × List LinkItem)) (docs : List NodeInfo) (c : Nat)
      (docs2 : List NodeInfo) (c2 : Nat),
    processGroups rec groups docs c = some (docs2, c2) →
    c2 = c + acceptedLinkCount groups := by
  intro groups
  induction groups with
  | nil =>
    intro docs c docs2 c2 h
    simp only [processGroups, Option.some.injEq, Prod.mk.injEq] at h
    rcases h with ⟨-, h2⟩
    simp [← h2, acceptedLinkCount]
  | cons g rest ih =>
    intro docs c docs2 c2 h
    obtain ⟨dt2, links⟩ := g
    simp only [processGroups] at h
    cases hpl : processLinks rec dt2 links docs c with
    | none => rw [hpl] at h; exact absurd h (by simp)
    | some res =>
      rw [hpl] at h
      obtain ⟨d3, c3⟩ := res
      have h3 := processLinks_count rec dt2 links docs c d3 c3 hpl
      have h4 := ih d3 c3 docs2 c2 h
      simp only [acceptedLinkCount, List.map_cons, List.sum_cons] at h4 ⊢
      rw [h4, h3]
      by_cases hv : validate_linked_doc dt2 <;> simp [hv, acceptedLinkCount]
      omega

theorem sortByLinkCount_sorted (docs : List NodeInfo) :
    (sortByLinkCount docs).Sorted (fun a b => a.link_count ≤ b.link_count) := by
  haveI : IsTotal NodeInfo (fun a b => a.link_count ≤ b.link_count) :=
    ⟨fun a b => Nat.le_total a.link_count b.link_count⟩
  haveI : IsTrans NodeInfo (fun a b => a.link_count ≤ b.link_count) :=
    ⟨fun _ _ _ h1 h2 => Nat.le_trans h1 h2⟩
  exact List.sorted_insertionSort _ docs

theorem get_linked_documents_some (G : LinkGraph) (fuel : Nat) (dt n : String)
    (docs0 docs : List NodeInfo) (count : Nat)
    (h : get_linked_documents G fuel dt n docs0 = some (docs, count)) :
    docs.Sorted (fun a b => a.link_count ≤ b.link_count) ∧
    count = acceptedLinkCount (G dt n) := by
  cases fuel with
  | zero => exact absurd h (by simp [get_linked_documents])
  | succ m =>
    rw [get_linked_documents] at h
    cases hpg : processGroups (get_linked_documents G m) (G dt n) docs0 0 with
    | none => rw [hpg] at h; exact absurd h (by simp)
    | some res =>
      rw [hpg] at h
      obtain ⟨d2, c2⟩ := res
      simp only [Option.some.injEq, Prod.mk.injEq] at h
      obtain ⟨hd, hc⟩ := h
      refine ⟨hd ▸ sortByLinkCount_sorted d2, ?_⟩
      have := processGroups_count (get_linked_documents G m) (G dt n) docs0 0 d2 c2 hpg
      omega

theorem processLinks_all_disallowed
    (rec : String → String → List NodeInfo → Option (List NodeInfo × Nat)) (dt : String)
    (hv : validate_linked_doc dt = false) :
    ∀ (links : List LinkItem) (docs : List NodeInfo) (c : Nat),
    processLinks rec dt links docs c = some (docs, c) := by
  intro links
  induction links with
  | nil => intro docs c; rfl
  | cons link rest ih =>
    intro docs c
    simp only [processLinks, hv]
    exact ih docs c

theorem processLinks_isSome
    (rec : String → String → List NodeInfo → Option (List NodeInfo × Nat)) (dt : String) :
    ∀ (links : List LinkItem),
    (∀ l docs2, l ∈ links → (rec dt l.name docs2).isSome = true) →
    ∀ (docs : List NodeInfo) (c : Nat),
    (processLinks rec dt links docs c).isSome = true := by
  intro links
  induction links with
  | nil => intro _ docs c; rfl
  | cons link rest ih =>
    intro hrec docs c
    simp only [processLinks]
    by_cases hv : validate_linked_doc dt = true
    · rw [if_pos hv]
      by_cases hc : ((docs.map (fun doc => doc.name)).contains link.name) = true
      · rw [if_pos hc]
        exact ih (fun l docs2 hl => hrec l docs2 (by simp [hl])) docs (c + 1)
      · rw [if_neg hc]
        cases hres : rec dt link.name docs with
        | none =>
          have := hrec link docs (by simp)
          rw [hres] at this
          simp at this
        | some res =>
          obtain ⟨d2, sub⟩ := res
          exact ih (fun l docs2 hl => hrec l docs2 (by simp [hl])) _ (c + 1)
    · rw [if_neg hv]
      exact ih (fun l docs2 hl => hrec l docs2 (by simp [hl])) docs c

theorem processGroups_all_disallowed
    (rec : String → String → List NodeInfo → Option (List NodeInfo × Nat)) :
    ∀ (groups : List (String × List LinkItem)),
    (∀ g ∈ groups, validate_linked_doc g.1 = false) →
    ∀ (docs : List NodeInfo) (c : Nat),
    processGroups rec groups docs c = some (docs, c) := by
  intro groups
  induction groups with
  | nil => intro _ docs c; rfl
  | cons g rest ih =>
    intro hall docs c
    obtain ⟨dt2, links⟩ := g
    simp only [processGroups]
    rw [processLinks_all_disallowed rec dt2 (hall (dt2, links) (by simp)) links docs c]
    exact ih (fun g2 hg2 => hall g2 (by simp [hg2])) docs c

theorem processGroups_isSome
    (rec : String → String → List NodeInfo → Option (List NodeInfo × Nat)) :
    ∀ (groups : List (String × List LinkItem)),
    (∀ dt2 links l docs2, (dt2, links) ∈ groups → validate_linked_doc dt2 = true →
      l ∈ links → (rec dt2 l.name docs2).isSome = true) →
    ∀ (docs : List NodeInfo) (c : Nat),
    (processGroups rec groups docs c).isSome = true := by
  intro groups
  induction groups with
  | nil => intro _ docs c; rfl
  | cons g rest ih =>
    intro hall docs c
    obtain ⟨dt2, links⟩ := g
    simp only [processGroups]
    by_cases hv : validate_linked_doc dt2 = true
    · have hpl := processLinks_isSome rec dt2 links
        (fun l docs2 hl => hall dt2 links l docs2 (by simp) hv hl) docs c
      cases hres : processLinks rec dt2 links docs c with
      | none => rw [hres] at hpl; simp at hpl
      | some res =>
        obtain ⟨d2, c2⟩ := res
        exact ih (fun dt3 links3 l docs2 hmem hv3 hl =>
          hall dt3 links3 l docs2 (by simp [hmem]) hv3 hl) d2 c2
    · rw [processLinks_all_disallowed rec dt2 (by simpa using hv) links docs c]
      exact ih (fun dt3 links3 l docs2 hmem hv3 hl =>
        hall dt3 links3 l docs2 (by simp [hmem]) hv3 hl) docs c

theorem cycleGraph_none : ∀ fuel : Nat,
    get_linked_documents cycleGraph fuel "Project" "A" [] = none ∧
    get_linked_documents cycleGraph fuel "Task" "B" [] = none := by
  intro fuel
  induction fuel with
  | zero => exact ⟨rfl, rfl⟩
  | succ m ih =>
    constructor
    · rw [get_linked_documents,
        show cycleGraph "Project" "A" = [("Task", [⟨"B", 0⟩])] from rfl]
      simp only [processGroups, processLinks]
      rw [if_pos (show validate_linked_doc "Task" = true from by decide),
        if_neg (show ¬ ((([] : List NodeInfo).map
          (fun doc => doc.name)).contains "B" = true) from by decide), ih.2]
    · rw [get_linked_documents,
        show cycleGraph "Task" "B" = [("Project", [⟨"A", 0⟩])] from rfl]
      simp only [processGroups, processLinks]
      rw [if_pos (show validate_linked_doc "Project" = true from by decide),
        if_neg (show ¬ ((([] : List NodeInfo).map
          (fun doc => doc.name)).contains "A" = true) from by decide), ih.1]

/-! ## Claim theorems -/

/-- **C4.** `validate_default_license` raises a hard rejection whenever a
license id repeats, regardless of default flags; with exactly one license
row it forces that row's default flag to set; with two or more rows of
distinct ids it rejects when zero rows are default, rejects naming the
count when more than one row is default, and with exactly one default row
succeeds without modifying the document. -/
theorem validate_default_license_spec (doc : PartyDoc) :
    (¬ (doc.licenses.map (fun license => license.license)).Nodup →
       validate_default_license doc = Except.error ThrowMsg.duplicateLicenses) ∧
    (∀ row, doc.licenses = [row] →
       validate_default_license doc =
         Except.ok { doc with licenses := [{ row with is_default := true }] }) ∧
    ((doc.licenses.map (fun license => license.license)).Nodup →
     2 ≤ doc.licenses.length →
       (((doc.licenses.filter (fun license => license.is_default)).length = 0 →
           validate_default_license doc = Except.error ThrowMsg.noDefaultLicense) ∧
        (1 < (doc.licenses.filter (fun license => license.is_default)).length →
           validate_default_license doc =
             Except.error (ThrowMsg.multipleDefaults doc.name
               (doc.licenses.filter (fun license => license.is_default)).length)) ∧
        ((doc.licenses.filter (fun license => license.is_default)).length = 1 →
           validate_default_license doc = Except.ok doc))) := by
  refine ⟨?_, ?_, ?_⟩
  · intro h
    have hlen : doc.licenses.length ≠
        ((doc.licenses.map (fun license => license.license)).dedup).length := by
      intro heq
      refine h ((dedup_length_eq_iff _).mp ?_)
      rw [List.length_map]
      exact heq.symm
    simp only [validate_default_license]
    rw [if_pos hlen]
  · intro row h
    simp [validate_default_license, h,
      List.dedup_cons_of_not_mem (List.not_mem_nil row.license)]
  · intro hnd hlen
    have hded : doc.licenses.length =
        ((doc.licenses.map (fun license => license.license)).dedup).length := by
      rw [List.dedup_eq_self.mpr hnd, List.length_map]
    have h1 : doc.licenses.length ≠ 1 := by omega
    have h2 : doc.licenses.length > 1 := by omega
    refine ⟨?_, ?_, ?_⟩
    · intro hz
      have hnil : doc.licenses.filter (fun license => license.is_default) = [] :=
        List.length_eq_zero.mp hz
      simp only [validate_default_license]
      rw [if_neg (by omega), if_neg h1, if_pos h2, hnil]
      rfl
    · intro hm
      have hne : (doc.licenses.filter (fun license => license.is_default)).isEmpty = false := by
        refine List.isEmpty_eq_false.mpr (List.length_pos.mp ?_)
        omega
      simp only [validate_default_license]
      rw [if_neg (by omega), if_neg h1, if_pos h2]
      rw [if_neg (by simp [hne]), if_pos hm]
    · intro ho
      have hne : (doc.licenses.filter (fun license => license.is_default)).isEmpty = false := by
        refine List.isEmpty_eq_false.mpr (List.length_pos.mp ?_)
        omega
      simp only [validate_default_license]
      rw [if_neg (by omega), if_neg h1, if_pos h2]
      rw [if_neg (by simp [hne]), if_neg (by omega)]

/-- Witness for C4 at concrete inputs: a duplicate-id document is
rejected, a single-license document gets its row forced default, and a
two-license document with exactly one default passes unchanged. -/
theorem validate_default_license_spec_witness :
    validate_default_license ⟨"PartyA", [⟨1, "L1", false, none⟩, ⟨2, "L1", true, none⟩]⟩ =
      Except.error ThrowMsg.duplicateLicenses ∧
    validate_default_license ⟨"PartyB", [⟨1, "L1", false, none⟩]⟩ =
      Except.ok ⟨"PartyB", [⟨1, "L1", true, none⟩]⟩ ∧
    validate_default_license ⟨"PartyC", [⟨1, "L1", true, none⟩, ⟨2, "L2", false, none⟩]⟩ =
      Except.ok ⟨"PartyC", [⟨1, "L1", true, none⟩, ⟨2, "L2", false, none⟩]⟩ := by
  refine ⟨(validate_default_license_spec _).1 (by decide), ?_, ?_⟩
  · exact (validate_default_license_spec _).2.1 ⟨1, "L1", false, none⟩ rfl
  · exact ((validate_default_license_spec _).2.2 (by decide) (by decide)).2.2 (by decide)

/-- **C8.** `validate_expired_licenses` emits exactly one advisory message
for each license row whose expiry date is set and strictly before today —
naming that row's index, its license id, and the day count `today - expiry`
— and the day count is non-negative; rows with no expiry date or expiry
today or later produce no message.  (The function only emits messages: it
neither throws nor modifies the document, which the model's type makes
explicit.) -/
theorem validate_expired_licenses_spec (today : Int) (rows : List LicenseRow) :
    validate_expired_licenses today rows =
      (rows.filter (isExpired today)).map (fun row =>
        Message.rowLicenseExpired row.idx row.license
          (dateDiff today (row.license_expiry_date.getD 0))) ∧
    (∀ row ∈ rows, isExpired today row = true →
      0 ≤ dateDiff today (row.license_expiry_date.getD 0)) := by
  constructor
  · induction rows with
    | nil => rfl
    | cons row rest ih =>
      simp only [validate_expired_licenses, List.filter_cons]
      cases hd : row.license_expiry_date with
      | none => simpa [isExpired, hd] using ih
      | some d =>
        by_cases hlt : d < today
        · simp [isExpired, hd, hlt, ih, dateDiff]
        · simp [isExpired, hd, hlt, ih]
  · intro row _ hexp
    cases hd : row.license_expiry_date with
    | none => simp [isExpired, hd] at hexp
    | some d =>
      have hlt : d < today := by simpa [isExpired, hd] using hexp
      simp only [hd, Option.getD_some, dateDiff]
      omega

/-- Witness for C8: today = day 10, one license expired on day 7 (one
message with day count 3) and one license with no expiry date (no
message). -/
theorem validate_expired_licenses_spec_witness :
    validate_expired_licenses 10 [⟨1, "L1", false, some 7⟩, ⟨2, "L2", false, none⟩] =
      [Message.rowLicenseExpired 1 "L1" 3] ∧
    (0 : Int) ≤ dateDiff 10 ((some (7 : Int)).getD 0) := by
  constructor
  · have h := (validate_expired_licenses_spec 10
      [⟨1, "L1", false, some 7⟩, ⟨2, "L2", false, none⟩]).1
    simpa using h
  · exact (validate_expired_licenses_spec 10
      [⟨1, "L1", false, some 7⟩, ⟨2, "L2", false, none⟩]).2
      ⟨1, "L1", false, some 7⟩ (by simp) (by decide)

/-- **C9.** `get_default_license` returns empty (`None`) for a party with
zero licenses; on a non-empty licenses table it returns the license id of
the first row whose default flag is set, and returns empty (`''`) when no
row is flagged default. -/
theorem get_default_license_spec (licenses : List LicenseRow) :
    (licenses = [] → get_default_license licenses = none) ∧
    (∀ pre row post, licenses = pre ++ row :: post →
       (∀ p ∈ pre, p.is_default = false) → row.is_default = true →
       get_default_license licenses = some row.license) ∧
    (licenses ≠ [] → (∀ row ∈ licenses, row.is_default = false) →
       get_default_license licenses = some "") := by
  refine ⟨?_, ?_, ?_⟩
  · intro h
    rw [h]
    rfl
  · intro pre row post h hpre hrow
    have hfind : ∀ pre2 : List LicenseRow, (∀ p ∈ pre2, p.is_default = false) →
        (pre2 ++ row :: post).find? (fun license => license.is_default) = some row := by
      intro pre2
      induction pre2 with
      | nil =>
        intro _
        simp [List.find?_cons, hrow]
      | cons p ps ih =>
        intro hall
        have hp := hall p (by simp)
        rw [List.cons_append, List.find?_cons]
        simp only [hp]
        exact ih (fun q hq => hall q (by simp [hq]))
    have hne : licenses.isEmpty = false := by
      rw [h]
      simp [List.isEmpty_eq_false]
    rw [get_default_license, if_neg (by simp [hne]), h, hfind pre hpre]
  · intro hne hall
    have hfind : licenses.find? (fun license => license.is_default) = none := by
      rw [List.find?_eq_none]
      intro row hrow
      simp [hall row hrow]
    rw [get_default_license, if_neg (by simp [List.isEmpty_eq_false, hne]), hfind]

/-- Witness for C9: zero licenses give `none`; the first default-flagged
row (the second of three) is returned; all-unflagged rows give `''`. -/
theorem get_default_license_spec_witness :
    get_default_license [] = none ∧
    get_default_license
      [⟨1, "L1", false, none⟩, ⟨2, "L2", true, none⟩, ⟨3, "L3", true, none⟩] = some "L2" ∧
    get_default_license [⟨1, "L1", false, none⟩] = some "" := by
  refine ⟨(get_default_license_spec []).1 rfl, ?_, ?_⟩
  · exact (get_default_license_spec _).2.1 [⟨1, "L1", false, none⟩] ⟨2, "L2", true, none⟩
      [⟨3, "L3", true, none⟩] rfl (by decide) rfl
  · exact (get_default_license_spec _).2.2 (by decide) (by decide)

/-- **C7.** `validate_entity_license` never raises a hard rejection: with
no default license it is a no-op returning nothing; otherwise (given the
Compliance Info record exists) it emits one non-blocking warning when the
expiry date is missing, one non-blocking warning naming the expiry date
when it is strictly before today, and nothing when the expiry date is
today or later — and in every found-license case it returns the license
identifier. -/
theorem validate_entity_license_spec (env : Env) (today : Int)
    (party_type party_name : String) :
    (isFalsyStr (get_default_license (env.partyLicenses party_type party_name)) = true →
       validate_entity_license env today party_type party_name = some ([], none)) ∧
    (∀ record, get_default_license (env.partyLicenses party_type party_name) = some record →
       record.isEmpty = false →
       ∀ info, env.complianceInfo record = some info →
         ((info.license_expiry_date = none →
             validate_entity_license env today party_type party_name =
               some ([Message.licenseUnverifiable info.license_number], some record)) ∧
          (∀ d, info.license_expiry_date = some d → d < today →
             validate_entity_license env today party_type party_name =
               some ([Message.partyLicenseExpired party_name info.license_number d],
                 some record)) ∧
          (∀ d, info.license_expiry_date = some d → today ≤ d →
             validate_entity_license env today party_type party_name =
               some ([], some record)))) := by
  constructor
  · intro h
    unfold validate_entity_license
    cases hg : get_default_license (env.partyLicenses party_type party_name) with
    | none => rfl
    | some s =>
      rw [hg] at h
      simp only [isFalsyStr] at h
      simp [h]
  · intro record hg hne info hinfo
    refine ⟨?_, ?_, ?_⟩
    · intro hd
      simp [validate_entity_license, hg, hne, hinfo, hd]
    · intro d hd hlt
      simp [validate_entity_license, hg, hne, hinfo, hd, hlt]
    · intro d hd hge
      simp [validate_entity_license, hg, hne, hinfo, hd, Int.not_lt.mpr hge]

/-- Witness for C7: a party whose default license "LIC" has Compliance
Info expiring on day 3, checked on day 10, yields exactly the expiry
warning and returns the license id. -/
theorem validate_entity_license_spec_witness :
    validate_entity_license
      ⟨fun _ _ => [⟨1, "LIC", true, some 5⟩],
       fun s => if s = "LIC" then some ⟨some 3, "NUM"⟩ else none⟩
      10 "Customer" "C1" =
      some ([Message.partyLicenseExpired "C1" "NUM" 3], some "LIC") := by
  exact ((validate_entity_license_spec
      ⟨fun _ _ => [⟨1, "LIC", true, some 5⟩],
       fun s => if s = "LIC" then some ⟨some 3, "NUM"⟩ else none⟩
      10 "Customer" "C1").2 "LIC" (by decide) (by decide)
      ⟨some 3, "NUM"⟩ (by decide)).2.1 3 rfl (by decide)

/-- **C10.** `update_timesheet_logs` with a reference doctype outside
{Project, Task, Project Type, Project Template} modifies no record at all
and completes without error: the database is returned unchanged. -/
theorem update_timesheet_logs_unrecognized_spec (db : Database) (ref_dt ref_dn : String)
    (b : Bool) (h : ref_dt ∉ ["Project", "Task", "Project Type", "Project Template"]) :
    update_timesheet_logs ref_dt ref_dn b db = db := by
  have h1 : ref_dt ∉ ["Project", "Task"] := by
    intro hm
    refine h ?_
    simp only [List.mem_cons] at hm ⊢
    tauto
  have h2 : ref_dt ∉ ["Project Type", "Project Template"] := by
    intro hm
    refine h ?_
    simp only [List.mem_cons] at hm ⊢
    tauto
  rw [update_timesheet_logs, if_neg h1, if_neg h2]

/-- Witness for C10: a "Sales Order" reference leaves the fixture database
untouched. -/
theorem update_timesheet_logs_unrecognized_spec_witness :
    update_timesheet_logs "Sales Order" "SO1" true fixtureDB = fixtureDB :=
  update_timesheet_logs_unrecognized_spec fixtureDB "Sales Order" "SO1" true (by decide)

/-- **C6.** `update_timesheet_logs` with reference doctype "Task" sets
`billable` on exactly the Timesheet Detail rows whose `task` field equals
the reference name — leaving every other Timesheet Detail row, every
Project and every Task unchanged — and with "Project" it does the same for
rows whose `project` field equals the reference name. -/
theorem update_timesheet_logs_task_project_spec (db : Database) (ref_dn : String) (b : Bool)
    (hnd : (db.timesheet_details.map TimesheetDetailRec.name).Nodup) :
    update_timesheet_logs "Task" ref_dn b db =
      { db with timesheet_details := (db.timesheet_details.map
          (fun td => if td.task = ref_dn then { td with billable := b } else td)) } ∧
    update_timesheet_logs "Project" ref_dn b db =
      { db with timesheet_details := (db.timesheet_details.map
          (fun td => if td.project = ref_dn then { td with billable := b } else td)) } := by
  constructor
  · have hmem : ("Task" : String) ∈ ["Project", "Task"] := by decide
    have hscrub : scrub "Task" = "task" := by decide
    rw [update_timesheet_logs, if_pos hmem, hscrub, foldl_setTimesheetBillable,
      tdSetFold_filter_eq b _ _ hnd]
    congr 1
    refine List.map_congr_left (fun td _ => ?_)
    simp [timesheetFieldMatches]
  · have hmem : ("Project" : String) ∈ ["Project", "Task"] := by decide
    have hscrub : scrub "Project" = "project" := by decide
    rw [update_timesheet_logs, if_pos hmem, hscrub, foldl_setTimesheetBillable,
      tdSetFold_filter_eq b _ _ hnd]
    congr 1
    refine List.map_congr_left (fun td _ => ?_)
    simp [timesheetFieldMatches]

/-- Witness for C6 on the fixture: the "Task" reference "T21" flips
exactly the row "D2", and the "Project" reference "P1" flips exactly the
row "D1". -/
theorem update_timesheet_logs_task_project_spec_witness :
    update_timesheet_logs "Task" "T21" true fixtureDB =
      { fixtureDB with timesheet_details :=
          [⟨"D1", "P1", "T11", false⟩, ⟨"D2", "P2", "T21", true⟩,
           ⟨"D3", "P3", "T31", false⟩] } ∧
    update_timesheet_logs "Project" "P1" true fixtureDB =
      { fixtureDB with timesheet_details :=
          [⟨"D1", "P1", "T11", true⟩, ⟨"D2", "P2", "T21", false⟩,
           ⟨"D3", "P3", "T31", false⟩] } := by
  constructor
  · have h := update_timesheet_logs_task_project_spec fixtureDB "T21" true (by decide)
    rw [h.1]
    decide
  · have h := update_timesheet_logs_task_project_spec fixtureDB "P1" true (by decide)
    rw [h.2]
    decide

/-- **C5.** `update_timesheet_logs` with reference doctype "Project Type"
(resp. "Project Template") sets `billable` and saves every Project whose
`project_type` (resp. `project_template`) field equals the reference name,
sets and saves every Task whose `project` field names one of those
Projects, and sets `billable` on every Timesheet Detail row whose
`project` field names one of those Projects. -/
theorem update_timesheet_logs_type_template_spec (db : Database) (ref_dn : String) (b : Bool)
    (hp : (db.projects.map ProjectRec.name).Nodup)
    (ht : (db.tasks.map TaskRec.name).Nodup)
    (htd : (db.timesheet_details.map TimesheetDetailRec.name).Nodup) :
    update_timesheet_logs "Project Type" ref_dn b db =
      { projects := (db.projects.map (fun p =>
          if p.project_type = ref_dn then { p with billable := b } else p)),
        tasks := (db.tasks.map (fun t =>
          if t.project ∈ (db.projects.filter
              (fun p => p.project_type = ref_dn)).map ProjectRec.name
          then { t with billable := b } else t)),
        timesheet_details := (db.timesheet_details.map (fun td =>
          if td.project ∈ (db.projects.filter
              (fun p => p.project_type = ref_dn)).map ProjectRec.name
          then { td with billable := b } else td)) } ∧
    update_timesheet_logs "Project Template" ref_dn b db =
      { projects := (db.projects.map (fun p =>
          if p.project_template = ref_dn then { p with billable := b } else p)),
        tasks := (db.tasks.map (fun t =>
          if t.project ∈ (db.projects.filter
              (fun p => p.project_template = ref_dn)).map ProjectRec.name
          then { t with billable := b } else t)),
        timesheet_details := (db.timesheet_details.map (fun td =>
          if td.project ∈ (db.projects.filter
              (fun p => p.project_template = ref_dn)).map ProjectRec.name
          then { td with billable := b } else td)) } := by
  constructor
  · have hni : ("Project Type" : String) ∉ ["Project", "Task"] := by decide
    have hmem : ("Project Type" : String) ∈ ["Project Type", "Project Template"] := by decide
    have hscrub : scrub "Project Type" = "project_type" := by decide
    rw [update_timesheet_logs, if_neg hni, if_pos hmem, hscrub]
    have hfilter : db.projects.filter (projectFieldMatches "project_type" ref_dn) =
        db.projects.filter (fun p => p.project_type = ref_dn) :=
      List.filter_congr (fun p _ => by simp [projectFieldMatches])
    have hconv : ∀ l : List ProjectRec,
        l.map (fun p => if projectFieldMatches "project_type" ref_dn p = true
          then { p with billable := b } else p) =
        l.map (fun p => if p.project_type = ref_dn then { p with billable := b } else p) :=
      fun l => List.map_congr_left (fun p _ => by simp [projectFieldMatches])
    have hcore := cascade_eq "project_type" ref_dn b db hp ht htd
    rw [hfilter, hconv] at hcore
    exact hcore
  · have hni : ("Project Template" : String) ∉ ["Project", "Task"] := by decide
    have hmem : ("Project Template" : String) ∈ ["Project Type", "Project Template"] := by decide
    have hscrub : scrub "Project Template" = "project_template" := by decide
    rw [update_timesheet_logs, if_neg hni, if_pos hmem, hscrub]
    have hfilter : db.projects.filter (projectFieldMatches "project_template" ref_dn) =
        db.projects.filter (fun p => p.project_template = ref_dn) :=
      List.filter_congr (fun p _ => by simp [projectFieldMatches])
    have hconv : ∀ l : List ProjectRec,
        l.map (fun p => if projectFieldMatches "project_template" ref_dn p = true
          then { p with billable := b } else p) =
        l.map (fun p => if p.project_template = ref_dn then { p with billable := b } else p) :=
      fun l => List.map_congr_left (fun p _ => by simp [projectFieldMatches])
    have hcore := cascade_eq "project_template" ref_dn b db hp ht htd
    rw [hfilter, hconv] at hcore
    exact hcore

/-- Witness for C5 on the fixture: type "TY1" covers Projects "P1", "P2",
their Tasks "T11", "T12", "T21", and the Timesheet Detail rows "D1", "D2",
while "P3" (type "TY2") and its records stay untouched. -/
theorem update_timesheet_logs_type_template_spec_witness :
    update_timesheet_logs "Project Type" "TY1" true fixtureDB =
      { projects := [⟨"P1", "TY1", "", true⟩, ⟨"P2", "TY1", "", true⟩,
                     ⟨"P3", "TY2", "", false⟩],
        tasks := [⟨"T11", "P1", true⟩, ⟨"T12", "P1", true⟩, ⟨"T21", "P2", true⟩,
                  ⟨"T31", "P3", false⟩],
        timesheet_details := [⟨"D1", "P1", "T11", true⟩, ⟨"D2", "P2", "T21", true⟩,
                              ⟨"D3", "P3", "T31", false⟩] } := by
  have h := update_timesheet_logs_type_template_spec fixtureDB "TY1" true
    (by decide) (by decide) (by decide)
  rw [h.1]
  decide

/-- **C1.** `get_linked_documents` returns `{docs: [], count: 0}` for a
document with no linked records and for a document all of whose linked
records have disallowed doctypes; on every terminating top-level call the
returned `docs` is sorted ascending by `link_count` and `count` equals the
number of accepted (allow-listed) direct links; and on the worked example
— Project "P1" linked to Task "T1" (no further links) and one
disallowed-doctype record — the result is
`{docs: [{doctype: "Task", name: "T1", docstatus: 0, link_count: 0}], count: 1}`. -/
theorem get_linked_documents_spec :
    (∀ (G : LinkGraph) (dt n : String) (fuel : Nat), 0 < fuel → G dt n = [] →
       get_linked_documents G fuel dt n [] = some ([], 0)) ∧
    (∀ (G : LinkGraph) (dt n : String) (fuel : Nat), 0 < fuel →
       (∀ g ∈ G dt n, validate_linked_doc g.1 = false) →
       get_linked_documents G fuel dt n [] = some ([], 0)) ∧
    (∀ (G : LinkGraph) (dt n : String) (fuel : Nat) (docs : List NodeInfo) (count : Nat),
       get_linked_documents G fuel dt n [] = some (docs, count) →
       docs.Sorted (fun a b => a.link_count ≤ b.link_count) ∧
       count = acceptedLinkCount (G dt n)) ∧
    get_linked_documents exampleGraph 2 "Project" "P1" [] =
      some ([⟨"Task", "T1", 0, 0⟩], 1) := by
  refine ⟨?_, ?_, ?_, by decide⟩
  · intro G dt n fuel hf hempty
    cases fuel with
    | zero => exact absurd hf (by simp)
    | succ m =>
      rw [get_linked_documents, hempty]
      rfl
  · intro G dt n fuel hf hall
    cases fuel with
    | zero => exact absurd hf (by simp)
    | succ m =>
      rw [get_linked_documents,
        processGroups_all_disallowed (get_linked_documents G m) (G dt n) hall [] 0]
      rfl
  · intro G dt n fuel docs count h
    exact get_linked_documents_some G fuel dt n [] docs count h

/-- Witness for C1: a link-free node returns `([], 0)`; a node with only a
disallowed link returns `([], 0)`; and the worked example's output is
sorted with count `1 = acceptedLinkCount`. -/
theorem get_linked_documents_spec_witness :
    get_linked_documents (fun _ _ => []) 1 "Project" "P0" [] = some ([], 0) ∧
    get_linked_documents (fun _ _ => [("Sales Order", [⟨"S", 0⟩])]) 1 "Project" "P0" [] =
      some ([], 0) ∧
    (([⟨"Task", "T1", 0, 0⟩] : List NodeInfo).Sorted
        (fun a b => a.link_count ≤ b.link_count) ∧
      1 = acceptedLinkCount (exampleGraph "Project" "P1")) :=
  ⟨get_linked_documents_spec.1 (fun _ _ => []) "Project" "P0" 1 (by decide) rfl,
   get_linked_documents_spec.2.1 (fun _ _ => [("Sales Order", [⟨"S", 0⟩])])
     "Project" "P0" 1 (by decide) (by decide),
   get_linked_documents_spec.2.2.1 exampleGraph "Project" "P1" 2 _ _
     get_linked_documents_spec.2.2.2⟩

/-- **C2.** In the traversal loop, a link of disallowed doctype is
discarded without counting; a link of allowed doctype always increments
the current call's `link_count`; and recursion plus appending are skipped
exactly when some accumulated entry already has the link's name — the
visited check compares names only, never doctypes. -/
theorem get_linked_documents_step_spec
    (rec : String → String → List NodeInfo → Option (List NodeInfo × Nat))
    (link_doctype : String) (link : LinkItem) (rest : List LinkItem)
    (docs : List NodeInfo) (link_count : Nat) :
    (validate_linked_doc link_doctype = false →
       processLinks rec link_doctype (link :: rest) docs link_count =
         processLinks rec link_doctype rest docs link_count) ∧
    (validate_linked_doc link_doctype = true →
       ((∃ doc ∈ docs, doc.name = link.name) →
          processLinks rec link_doctype (link :: rest) docs link_count =
            processLinks rec link_doctype rest docs (link_count + 1)) ∧
       ((∀ doc ∈ docs, doc.name ≠ link.name) →
          processLinks rec link_doctype (link :: rest) docs link_count =
            (match rec link_doctype link.name docs with
             | none => none
             | some (docs2, sub_count) =>
               processLinks rec link_doctype rest
                 ((if docs.isEmpty then docs else docs2) ++
                   [⟨link_doctype, link.name, link.docstatus, sub_count⟩])
                 (link_count + 1)))) := by
  refine ⟨?_, fun hv => ⟨?_, ?_⟩⟩
  · intro hv
    simp only [processLinks]
    rw [if_neg (by simp [hv])]
  · intro hex
    obtain ⟨d, hd, hdn⟩ := hex
    have hmem : link.name ∈ docs.map (fun doc => doc.name) := by
      rw [← hdn]
      exact List.mem_map_of_mem _ hd
    simp only [processLinks]
    rw [if_pos hv, if_pos (List.elem_iff.mpr hmem)]
  · intro hnone
    have hnm : link.name ∉ docs.map (fun doc => doc.name) := by
      intro hmem
      obtain ⟨d, hd, hdn⟩ := List.mem_map.mp hmem
      exact hnone d hd hdn
    have hc : ((docs.map (fun doc => doc.name)).contains link.name) = false :=
      Bool.eq_false_iff.mpr (fun hcc => hnm (List.elem_iff.mp hcc))
    simp only [processLinks]
    rw [if_pos hv, if_neg (by simp only [hc]; decide)]

/-- Witness for C2: a "Task" link named "X" is skipped (but still counted,
3 becomes 4) because a node of a different doctype ("Timesheet") named "X"
is already accumulated; a "Sales Order" link is discarded without
counting. -/
theorem get_linked_documents_step_spec_witness :
    processLinks (fun _ _ _ => none) "Task" [⟨"X", 5⟩] [⟨"Timesheet", "X", 0, 0⟩] 3 =
      processLinks (fun _ _ _ => none) "Task" [] [⟨"Timesheet", "X", 0, 0⟩] 4 ∧
    processLinks (fun _ _ _ => none) "Sales Order" [⟨"Y", 0⟩] [] 0 =
      processLinks (fun _ _ _ => none) "Sales Order" [] [] 0 :=
  ⟨((get_linked_documents_step_spec (fun _ _ _ => none) "Task" ⟨"X", 5⟩ []
      [⟨"Timesheet", "X", 0, 0⟩] 3).2 (by decide)).1 ⟨⟨"Timesheet", "X", 0, 0⟩, by simp, rfl⟩,
   (get_linked_documents_step_spec (fun _ _ _ => none) "Sales Order" ⟨"Y", 0⟩ []
      [] 0).1 (by decide)⟩

/-- **C3.** The traversal terminates on every link graph whose allow-listed
links admit a strictly decreasing rank (in particular every acyclic graph),
and on a graph whose cycle is reachable only through a link whose name is
already appended (the name-based visited check suppresses entry); but a
genuine allow-listed cycle back to an in-progress node — Project "A" →
Task "B" → Project "A" — recurses forever: no amount of fuel produces a
result. -/
theorem get_linked_documents_termination_spec :
    (∀ (G : LinkGraph) (r : String → String → Nat),
       (∀ dt n dt2 links l, (dt2, links) ∈ G dt n → validate_linked_doc dt2 = true →
          l ∈ links → r dt2 l.name < r dt n) →
       ∀ (fuel : Nat) (dt n : String) (docs : List NodeInfo), r dt n < fuel →
         (get_linked_documents G fuel dt n docs).isSome = true) ∧
    (∀ fuel : Nat, get_linked_documents cycleGraph fuel "Project" "A" [] = none) ∧
    get_linked_documents guardedGraph 3 "Project" "R" [] =
      some ([⟨"Task", "N", 0, 0⟩, ⟨"Project", "M", 0, 1⟩], 2) := by
  refine ⟨?_, fun fuel => (cycleGraph_none fuel).1, by decide⟩
  intro G r hrank fuel
  induction fuel with
  | zero => intro dt n docs h; exact absurd h (Nat.not_lt_zero _)
  | succ m ih =>
    intro dt n docs hlt
    rw [get_linked_documents]
    have hpg : (processGroups (get_linked_documents G m) (G dt n) docs 0).isSome = true := by
      refine processGroups_isSome (get_linked_documents G m) (G dt n) ?_ docs 0
      intro dt2 links l docs2 hmem hv hl
      exact ih dt2 l.name docs2
        (lt_of_lt_of_le (hrank dt n dt2 links l hmem hv hl) (Nat.lt_succ_iff.mp hlt))
    cases hres : processGroups (get_linked_documents G m) (G dt n) docs 0 with
    | none => rw [hres] at hpg; simp at hpg
    | some res =>
      obtain ⟨d2, c2⟩ := res
      rfl

/-- Witness for C3's rank-based part: the empty link graph with the zero
rank terminates at fuel 1. -/
theorem get_linked_documents_termination_spec_witness :
    (get_linked_documents (fun _ _ => []) 1 "Project" "P0" []).isSome = true :=
  get_linked_documents_termination_spec.1 (fun _ _ => []) (fun _ _ => 0)
    (fun _ _ _ _ _ hmem _ _ => absurd hmem (List.not_mem_nil _)) 1 "Project" "P0" []
    (by decide)

end Bloomstack
